import Mathlib

/-
Verification of the doc-section extraction and declaration-correlation logic
of cli/daemon/dash/ai/parser.go.

Strings are modelled as `List Char` (`String.data`); each Go string helper
used by the source is embedded separately and the source functions are
translated branch by branch.  A Go `panic` (out-of-range index) is modelled
by `Option`: `none` means the function aborts.
-/

namespace EncoreAI

/-- Character class trimmed by Go's strings.TrimSpace (unicode.IsSpace):
ASCII whitespace plus NEL and NBSP. -/
def goIsSpace (c : Char) : Bool :=
  c == ' ' || c == '\t' || c == '\n' || c == '\u000B' || c == '\u000C' ||
    c == '\r' || c == '\u0085' || c == ' '

/-- Go strings.TrimSpace on a character list: drop leading and trailing space. -/
def trimSpace (l : List Char) : List Char :=
  ((l.dropWhile goIsSpace).reverse.dropWhile goIsSpace).reverse

/-- Go strings.HasPrefix: does the first list start with the second? -/
def startsWith : List Char → List Char → Bool
  | _, [] => true
  | [], _ :: _ => false
  | c :: cs, p :: ps => c == p && startsWith cs ps

/-- Go strings.Split(s, "\n"): split at every newline; always non-empty. -/
def splitNl : List Char → List (List Char)
  | [] => [[]]
  | c :: cs =>
    if c = '\n' then [] :: splitNl cs
    else
      match splitNl cs with
      | [] => [[c]]
      | l :: ls => (c :: l) :: ls

/-- Go strings.Join(ls, "\n"). -/
def intercalateNl : List (List Char) → List Char
  | [] => []
  | [l] => l
  | l :: ls => l ++ '\n' :: intercalateNl ls

/-- Go strings.Cut(s, ":"): split at the first colon; `none` when no colon. -/
def cutColon : List Char → Option (List Char × List Char)
  | [] => none
  | c :: cs =>
    if c = ':' then some ([], cs)
    else (cutColon cs).map fun p => (c :: p.1, p.2)

/-- Go strings.TrimPrefix(s, "-"): drop one leading dash when present. -/
def dropDash : List Char → List Char
  | '-' :: cs => cs
  | l => l

/-- One key/value entry recognized inside a labelled doc section
(source type DocEntry, fields Key/Doc), at the character-list level. -/
structure DocEntryL where
  key : List Char
  doc : List Char
deriving DecidableEq, Repr

/-- Append a continuation line to the last entry's value
(source: errs[len(errs)-1].Doc += "\n" + line). -/
def addCont (line : List Char) : List DocEntryL → List DocEntryL
  | [] => []
  | [e] => [{ e with doc := e.doc ++ '\n' :: line }]
  | e :: es => e :: addCont line es

/-- One step of the entry-building loop of parseDocSection
(parser.go lines 99-111): a line with a colon starts a new entry
(dash stripped from the key, both sides trimmed); a non-empty line
without a colon extends the previous entry's value; otherwise dropped. -/
def entryStep (errs : List DocEntryL) (line : List Char) : List DocEntryL :=
  match cutColon line with
  | some (k, d) => errs ++ [⟨trimSpace (dropDash k), trimSpace d⟩]
  | none => if line = [] then errs else addCont line errs

/-- The entry-building loop of parseDocSection over the section's lines. -/
def entriesOf (ls : List (List Char)) : List DocEntryL :=
  ls.foldl entryStep []

/-- The scanning loop of parseDocSection (parser.go lines 75-94).
Arguments: remaining lines, processed lines so far (reversed), the
label-line index found so far (`none` models Go's -1), the current
value of `end`, and the current index `i`.  Returns the final line
array, `start` and `end`; `none` models the out-of-range read of
lines[i-1] at i = 0. -/
def scanLoop (lab : List Char) :
    List (List Char) → List (List Char) → Option Nat → Nat → Nat →
    Option (List (List Char) × Option Nat × Nat)
  | [], acc, start, endv, _ => some (acc.reverse, start, endv)
  | line :: rest, acc, start0, _, i =>
    if start0 = none ∧ ¬ startsWith (trimSpace line) (lab ++ [':']) then
      -- start == -1 and not the label line: `continue`, leaving lines[i] untouched
      scanLoop lab rest (line :: acc) start0 i (i + 1)
    else
      let start := if startsWith (trimSpace line) (lab ++ [':']) then some i else start0
      let endv :=
        if ¬ startsWith (trimSpace line) (lab ++ [':']) ∧ start0 ≠ none ∧
            2 < line.length ∧ trimSpace (line.take 2) ≠ ['-'] ∧
            trimSpace (line.take 2) ≠ [] then
          i - 1
        else i
      if line = [] then
        match acc with
        | [] => none -- lines[i-1] with i = 0: index out of range
        | prev :: _ =>
          if prev = [] then some ((trimSpace line :: acc).reverse ++ rest, start, endv)
          else scanLoop lab rest (trimSpace line :: acc) start endv (i + 1)
      else scanLoop lab rest (trimSpace line :: acc) start endv (i + 1)

/-- The scan of parseDocSection applied to a document. -/
def scanOf (docL lab : List Char) : Option (List (List Char) × Option Nat × Nat) :=
  scanLoop lab (splitNl docL) [] none 0 0

/-- parseDocSection (parser.go lines 70-113) at the character-list level:
scan for the section label, then build entries from
lines[start+1 : end+1] and return strings.Join(lines[:start], "\n"). -/
def parseDocSectionL (docL lab : List Char) : Option (List Char × List DocEntryL) :=
  match scanOf docL lab with
  | none => none
  | some (_, none, _) => some (docL, [])
  | some (pl, some s, e) =>
    some (intercalateNl (pl.take s), entriesOf ((pl.drop (s + 1)).take (e - s)))

/-- DocEntry at the String level. -/
structure DocEntry where
  key : String
  doc : String
deriving DecidableEq, Repr

/-- parseDocSection at the String level. -/
def parseDocSection (doc lab : String) : Option (String × List DocEntry) :=
  (parseDocSectionL doc.data lab.data).map fun r =>
    (String.mk r.1, r.2.map fun e => ⟨String.mk e.key, String.mk e.doc⟩)

/-- Section label used by parseErrorDoc.  Modelled from the spec: the
source constant (defined outside this file) is the fixed label "errors". -/
def errDocLabel : String := "errors"

/-- Section label used by parsePathDoc.  Modelled from the spec: the
source constant (defined outside this file) is the fixed label
"path params". -/
def pathDocLabel : String := "path params"

/-- Error-code entry extracted from the "errors" section (source type
ErrorInput, fields Code/Doc; the type itself lives outside this file
and is modelled from the spec). -/
structure ErrorInput where
  code : String
  doc : String
deriving DecidableEq, Repr

/-- parseErrorDoc (parser.go lines 51-59): extract the "errors" section
and map each entry to an ErrorInput. -/
def parseErrorDoc (doc : String) : Option (String × List ErrorInput) :=
  (parseDocSection doc errDocLabel).map fun r =>
    (r.1, r.2.map fun e => ⟨e.key, e.doc⟩)

/-- Go map insertion (last write wins), modelling rtn[d.Key] = d.Doc. -/
def mapInsert (k v : String) : List (String × String) → List (String × String)
  | [] => [(k, v)]
  | (k0, v0) :: rest =>
    if k0 = k then (k, v) :: rest else (k0, v0) :: mapInsert k v rest

/-- parsePathDoc (parser.go lines 61-68): extract the "path params"
section into a key-to-doc mapping. -/
def parsePathDoc (doc : String) : Option (String × List (String × String)) :=
  (parseDocSection doc pathDocLabel).map fun r =>
    (r.1, r.2.foldl (fun m e => mapInsert e.key e.doc m) [])

theorem splitNl_line_append (a t : List Char) (h : '\n' ∉ a) :
    splitNl (a ++ '\n' :: t) = a :: splitNl t := by
  induction a with
  | nil => simp [splitNl]
  | cons c cs ih =>
    have hc : ¬ c = '\n' := (List.ne_of_not_mem_cons h).symm
    have h2 : '\n' ∉ cs := List.not_mem_of_not_mem_cons h
    simp [splitNl, hc, ih h2]

theorem splitNl_cons_nl (cs : List Char) :
    splitNl ('\n' :: cs) = [] :: splitNl cs := by
  simp [splitNl]

theorem startsWith_nil_label (lab : List Char) :
    startsWith [] (lab ++ [':']) = false := by
  cases lab <;> rfl

/-- The scan never reads lines[i-1] at i = 0: if the accumulator is empty
then the current line was reached with start unset, and an empty line can
never be the label line, so the out-of-range branch is unreachable. -/
theorem scanLoop_isSome (lab : List Char) (rest : List (List Char)) :
    ∀ (acc : List (List Char)) (start : Option Nat) (endv i : Nat),
      (acc = [] → start = none) →
      (scanLoop lab rest acc start endv i).isSome = true := by
  induction rest with
  | nil => intro acc start endv i _; simp [scanLoop]
  | cons line rest ih =>
    intro acc start endv i hpre
    rw [scanLoop]
    by_cases h1 : start = none ∧ ¬ startsWith (trimSpace line) (lab ++ [':']) = true
    · rw [if_pos h1]
      exact ih _ _ _ _ (by intro h; cases h)
    · rw [if_neg h1]
      by_cases h2 : line = []
      · have hlab : ¬ startsWith (trimSpace line) (lab ++ [':']) = true := by
          rw [h2]
          show ¬ startsWith (trimSpace []) (lab ++ [':']) = true
          have : trimSpace [] = [] := rfl
          rw [this, startsWith_nil_label]
          simp
        have hs : ¬ start = none := fun hn => h1 ⟨hn, hlab⟩
        cases acc with
        | nil => exact absurd (hpre rfl) hs
        | cons prev acc' =>
          rw [if_pos h2]
          by_cases h3 : prev = []
          · simp [h3]
          · simp only [h3, if_neg]
            exact ih _ _ _ _ (by intro h; cases h)
      · rw [if_neg h2]
        exact ih _ _ _ _ (by intro h; cases h)

theorem parseDocSection_total (doc lab : String) :
    (parseDocSection doc lab).isSome = true := by
  unfold parseDocSection parseDocSectionL scanOf
  have h := scanLoop_isSome lab.data (splitNl doc.data) [] none 0 0 (fun _ => rfl)
  cases hs : scanLoop lab.data (splitNl doc.data) [] none 0 0 with
  | none => rw [hs] at h; cases h
  | some r =>
    obtain ⟨pl, st, e⟩ := r
    cases st <;> simp [hs]

/-- Claim C10: parseDocSection is total — for every document and label it
returns a value; in particular the lines[i-1] read in the blank-line check
is never evaluated at i = 0 (the `none` branch of the embedding, which
models that out-of-range access, is unreachable). -/
theorem claim_C10_total (doc lab : String) :
    (parseDocSection doc lab).isSome = true :=
  parseDocSection_total doc lab

theorem scanLoop_noLabel (lab : List Char) (rest : List (List Char)) :
    ∀ (acc : List (List Char)) (endv i : Nat),
      (∀ l ∈ rest, startsWith (trimSpace l) (lab ++ [':']) = false) →
      ∃ pl e, scanLoop lab rest acc none endv i = some (pl, none, e) := by
  induction rest with
  | nil => intro acc endv i _; exact ⟨acc.reverse, endv, rfl⟩
  | cons line rest ih =>
    intro acc endv i h
    rw [scanLoop]
    have hline : startsWith (trimSpace line) (lab ++ [':']) = false :=
      h line (List.mem_cons_self line rest)
    rw [if_pos ⟨rfl, by rw [hline]; simp⟩]
    exact ih _ _ _ (fun l hl => h l (List.mem_cons_of_mem line hl))

/-- Claim C1, amended: when no line's trimmed content starts with
label+":", the input is returned unchanged with an empty entry list; and
when the label is found (the scan ends with start = some s), the remainder
is the join of the scanned lines strictly before the label line only — the
label line, the section and every line after it are removed — and the
entries come from the scanned lines start+1 through end. -/
theorem claim_C1_amended :
    (∀ (doc lab : String),
        (∀ l ∈ splitNl doc.data, startsWith (trimSpace l) (lab.data ++ [':']) = false) →
        parseDocSection doc lab = some (doc, [])) ∧
    (∀ (doc lab : String) (pl : List (List Char)) (s e : Nat),
        scanOf doc.data lab.data = some (pl, some s, e) →
        parseDocSection doc lab =
          some (String.mk (intercalateNl (pl.take s)),
            (entriesOf ((pl.drop (s + 1)).take (e - s))).map
              fun en => ⟨String.mk en.key, String.mk en.doc⟩)) := by
  constructor
  · intro doc lab h
    obtain ⟨pl, e, hs⟩ := scanLoop_noLabel lab.data (splitNl doc.data) [] 0 0 h
    unfold parseDocSection parseDocSectionL scanOf
    rw [hs]
    rfl
  · intro doc lab pl s e hs
    unfold parseDocSection parseDocSectionL
    rw [hs]
    rfl

/-- Claim C1, witness for the amended theorem: a document with no errors
section is returned unchanged; on "head\nerrors:\n- K: v\nrest here" the
scan finds the label at line 1 with end 2, and the remainder keeps only
the line before the label. -/
theorem claim_C1_amended_witness :
    parseDocSection "no sections here" "errors" = some ("no sections here", []) ∧
    parseDocSection "head\nerrors:\n- K: v\nrest here" "errors" =
      some ("head", [⟨"K", "v"⟩]) := by
  constructor
  · exact claim_C1_amended.1 "no sections here" "errors" (by decide)
  · exact (claim_C1_amended.2 "head\nerrors:\n- K: v\nrest here" "errors"
      ["head".data, "errors:".data, "- K: v".data, "rest here".data] 1 2
      (by decide)).trans (by decide)

/-- Claim C3, counterexample: on the spec's example document the code
returns remainder "Does X." — the blank line and the text "more text"
after the errors section are dropped, not preserved as the claim's
remainder "Does X.\n\nmore text"; the entries themselves match. -/
theorem claim_C3_counterexample :
    parseErrorDoc
        "Does X.\nerrors:\n- NotFound: no such thing\n- Internal: oops\n\nmore text" =
      some ("Does X.", [⟨"NotFound", "no such thing"⟩, ⟨"Internal", "oops"⟩]) ∧
    ("Does X." : String) ≠ "Does X.\n\nmore text" := by
  exact ⟨by decide, by decide⟩

/-- Claim C3, amended: on the input doc
"Does X.\nerrors:\n- NotFound: no such thing\n- Internal: oops\n\nmore text",
error-annotation extraction returns the entry list
[{NotFound, "no such thing"}, {Internal, "oops"}] in that order, and the
remainder "Does X." (everything from the label line to the end of the
document is removed, including the text after the section). -/
theorem claim_C3_amended :
    parseErrorDoc
        "Does X.\nerrors:\n- NotFound: no such thing\n- Internal: oops\n\nmore text" =
      some ("Does X.", [⟨"NotFound", "no such thing"⟩, ⟨"Internal", "oops"⟩]) := by
  decide

/-- Claim C1, counterexample: for the input "head\nerrors:\n- K: v\nrest here"
the section's lines are the label line and "- K: v", so the claim predicts
remainder "head\nrest here" (lines before and after joined back); the code
returns "head" — the line after the section is not joined back. -/
theorem claim_C1_counterexample :
    parseDocSection "head\nerrors:\n- K: v\nrest here" "errors" =
      some ("head", [⟨"K", "v"⟩]) ∧
    ("head" : String) ≠ "head\nrest here" := by
  exact ⟨by decide, by decide⟩

/-- Claim C6, counterexample: neither reading of the claimed termination
rule matches the code.  On "errors:\n- A: a\nplain tail" the final
non-dash line is excluded (the code's end moves back one line), so it is
neither consumed as a continuation (entry doc stays "a") nor able to
terminate anything earlier; on "errors:\n- A: a\nmid line\n- B: b" the
same shape of line in the middle terminates nothing: it is absorbed into
entry A's value and the dashed line after it still contributes entry B,
contradicting "lines at or past the terminator contribute no entries". -/
theorem claim_C6_counterexample :
    parseDocSection "errors:\n- A: a\nplain tail" "errors" =
      some ("", [⟨"A", "a"⟩]) ∧
    parseDocSection "errors:\n- A: a\nmid line\n- B: b" "errors" =
      some ("", [⟨"A", "a\nmid line"⟩, ⟨"B", "b"⟩]) ∧
    ([⟨"A", "a"⟩] : List DocEntry) ≠ [⟨"A", "a\nplain tail"⟩] ∧
    ([⟨"A", "a\nmid line"⟩, ⟨"B", "b"⟩] : List DocEntry) ≠ [⟨"A", "a"⟩] := by
  exact ⟨by decide, by decide, by decide, by decide⟩

/-- Claim C7, counterexample: with a label section followed by two blank
lines, the content after the second blank line is excluded from the
entries, but it is not preserved in the remainder: the remainder keeps
only the lines before the label line ("intro"), and "tail text" is gone. -/
theorem claim_C7_counterexample :
    parseDocSection "intro\nerrors:\n- A: a\n\n\ntail text" "errors" =
      some ("intro", [⟨"A", "a"⟩]) ∧
    ¬ "tail text".data <:+: "intro".data := by
  exact ⟨by decide, by decide⟩

/-- Claim C7, amended: for every continuation of the document beyond a
label section followed by two consecutive blank lines, the content after
the second blank line appears in no extracted entry — and it is also
absent from the returned remainder, which keeps only the lines before the
label line.  Stated for an arbitrary suffix after the two blank lines. -/
theorem claim_C7_amended (tail : String) :
    parseDocSection ("intro\nerrors:\n- A: a\n\n\n" ++ tail) "errors" =
      some ("intro", [⟨"A", "a"⟩]) := by
  have hdata : ("intro\nerrors:\n- A: a\n\n\n" ++ tail).data =
      "intro".data ++ '\n' ::
        ("errors:".data ++ '\n' ::
          ("- A: a".data ++ '\n' :: ('\n' :: ('\n' :: tail.data)))) := by
    show ("intro\nerrors:\n- A: a\n\n\n".data ++ tail.data) = _
    rfl
  have hsplit : splitNl ("intro\nerrors:\n- A: a\n\n\n" ++ tail).data =
      "intro".data :: "errors:".data :: "- A: a".data :: [] :: [] :: splitNl tail.data := by
    rw [hdata, splitNl_line_append _ _ (by decide), splitNl_line_append _ _ (by decide),
      splitNl_line_append _ _ (by decide), splitNl_cons_nl, splitNl_cons_nl]
  have hscan : scanOf ("intro\nerrors:\n- A: a\n\n\n" ++ tail).data "errors".data =
      some ("intro".data :: "errors:".data :: "- A: a".data :: [] :: [] :: splitNl tail.data,
        some 1, 4) := by
    unfold scanOf
    rw [hsplit]
    simp +decide [scanLoop]
  unfold parseDocSection parseDocSectionL
  rw [hscan]
  simp +decide

theorem mem_of_mem_dropWhile (p : Char → Bool) (l : List Char) (a : Char)
    (h : a ∈ l.dropWhile p) : a ∈ l := by
  induction l with
  | nil => exact absurd h (List.not_mem_nil a)
  | cons c cs ih =>
    rw [List.dropWhile_cons] at h
    by_cases hc : p c = true
    · simp only [hc, if_pos] at h
      exact List.mem_cons_of_mem c (ih h)
    · simp only [hc] at h
      simpa using h

theorem mem_of_mem_trimSpace (l : List Char) (a : Char)
    (h : a ∈ trimSpace l) : a ∈ l := by
  unfold trimSpace at h
  rw [List.mem_reverse] at h
  have h2 := mem_of_mem_dropWhile _ _ _ h
  rw [List.mem_reverse] at h2
  exact mem_of_mem_dropWhile _ _ _ h2

theorem mem_of_startsWith (l p : List Char) (h : startsWith l p = true) :
    ∀ c ∈ p, c ∈ l := by
  induction p generalizing l with
  | nil => intro c hc; cases hc
  | cons q qs ih =>
    cases l with
    | nil => cases h
    | cons x xs =>
      rw [startsWith, Bool.and_eq_true, beq_iff_eq] at h
      intro c hc
      rcases List.mem_cons.mp hc with hq | hqs
      · exact List.mem_cons.mpr (Or.inl (hq.trans h.1.symm))
      · exact List.mem_cons_of_mem x (ih xs h.2 c hqs)

theorem cutColon_eq_none (l : List Char) (h : ':' ∉ l) : cutColon l = none := by
  induction l with
  | nil => rfl
  | cons c cs ih =>
    have hc : ¬ c = ':' := fun he => h (he ▸ List.mem_cons_self c cs)
    rw [cutColon, if_neg hc, ih (List.not_mem_of_not_mem_cons h)]
    rfl

theorem startsWith_label_eq_false_of_no_colon (lab l : List Char)
    (h : ':' ∉ l) : startsWith (trimSpace l) (lab ++ [':']) = false := by
  by_contra hb
  rw [Bool.not_eq_false] at hb
  exact h (mem_of_mem_trimSpace l ':'
    (mem_of_startsWith _ _ hb ':' (by simp)))

/-- Claim C6, amended: a line that after trimming neither begins with a
dash marker nor is blank does not terminate section consumption when
further lines follow: the section runs on, such a colon-free line is
absorbed as a continuation of the previous entry (its trimmed text
appended on a new line), and a dashed line after it still contributes a
new entry; a consumed line containing a colon starts a new entry even
without a dash marker (second conjunct).  Consumption ends only at two
consecutive blank lines or at the end of the text (where a final such
line is excluded).  Stated for an arbitrary colon-free, newline-free,
non-blank middle line. -/
theorem claim_C6_amended (mid : List Char) (hnl : '\n' ∉ mid)
    (hcol : ':' ∉ mid) (htm : ¬ trimSpace mid = []) :
    parseDocSectionL ("errors:\n- A: a\n".data ++ (mid ++ "\n- B: b".data))
        "errors".data =
      some ([], [⟨['A'], 'a' :: '\n' :: trimSpace mid⟩, ⟨['B'], ['b']⟩]) ∧
    parseDocSection "errors:\n- A: a\nStatus: active\n- B: b" "errors" =
      some ("", [⟨"A", "a"⟩, ⟨"Status", "active"⟩, ⟨"B", "b"⟩]) := by
  refine ⟨?_, by decide⟩
  have hmidne : ¬ mid = [] := fun he => htm (by rw [he]; rfl)
  have hlab : startsWith (trimSpace mid) ['e', 'r', 'r', 'o', 'r', 's', ':'] = false :=
    startsWith_label_eq_false_of_no_colon "errors".data _ hcol
  have hcut : cutColon (trimSpace mid) = none :=
    cutColon_eq_none _ fun hc => hcol (mem_of_mem_trimSpace _ _ hc)
  have hdata : "errors:\n- A: a\n".data ++ (mid ++ "\n- B: b".data) =
      "errors:".data ++ '\n' :: ("- A: a".data ++ '\n' :: (mid ++ '\n' :: "- B: b".data)) := by
    rfl
  have hsplit : splitNl ("errors:\n- A: a\n".data ++ (mid ++ "\n- B: b".data)) =
      "errors:".data :: "- A: a".data :: mid :: ["- B: b".data] := by
    rw [hdata, splitNl_line_append _ _ (by decide), splitNl_line_append _ _ (by decide),
      splitNl_line_append _ _ hnl]
    rfl
  unfold parseDocSectionL scanOf
  rw [hsplit]
  simp +decide [scanLoop, hlab, hmidne, entriesOf, entryStep, hcut, htm, addCont]
  rw [show cutColon (trimSpace ['-', ' ', 'B', ':', ' ', 'b']) =
      some (['-', ' ', 'B'], [' ', 'b']) from by decide]
  rw [show trimSpace [' ', 'a'] = ['a'] from by decide]
  simp +decide

/-- Claim C6, witness for the amended theorem: the middle line
"mid line" is colon-free and non-blank, and the extraction absorbs it
into entry A while the dashed line after it still yields entry B. -/
theorem claim_C6_amended_witness :
    parseDocSectionL ("errors:\n- A: a\n".data ++ ("mid line".data ++ "\n- B: b".data))
        "errors".data =
      some ([], [⟨['A'], 'a' :: '\n' :: trimSpace "mid line".data⟩, ⟨['B'], ['b']⟩]) :=
  (claim_C6_amended "mid line".data (by decide) (by decide) (by decide)).1

/-- The non-whitespace characters of a list, in order.  Two texts are
equivalent modulo whitespace trimming exactly when they agree here. -/
def stripWS (l : List Char) : List Char :=
  l.filter fun c => !(goIsSpace c)

/-- The remainder parseDocSection returns, as a function of the scan:
the lines before the label line, or the input unchanged when the label
is absent. -/
def remainderL (docL lab : List Char) : List Char :=
  match scanOf docL lab with
  | some (pl, some s, _) => intercalateNl (pl.take s)
  | _ => docL

/-- The section parseDocSection consumes: the scanned lines from the
label line through the last consumed line (empty when no label). -/
def consumedL (docL lab : List Char) : List Char :=
  match scanOf docL lab with
  | some (pl, some s, e) => intercalateNl ((pl.take (e + 1)).drop s)
  | _ => []

/-- The lines parseDocSection silently drops: everything after the last
consumed line (empty when no label). -/
def droppedL (docL lab : List Char) : List Char :=
  match scanOf docL lab with
  | some (pl, some _, e) => intercalateNl (pl.drop (e + 1))
  | _ => []

theorem stripWS_append (a b : List Char) :
    stripWS (a ++ b) = stripWS a ++ stripWS b :=
  List.filter_append a b

theorem stripWS_dropWhile (l : List Char) :
    stripWS (l.dropWhile goIsSpace) = stripWS l := by
  induction l with
  | nil => rfl
  | cons c cs ih =>
    rw [List.dropWhile_cons]
    by_cases hc : goIsSpace c = true
    · rw [if_pos hc, ih]
      show stripWS cs = stripWS (c :: cs)
      unfold stripWS
      rw [List.filter_cons]
      have hb : (!goIsSpace c) = false := by rw [hc]; rfl
      rw [hb]
      simp
    · rw [if_neg hc]

theorem stripWS_reverse (l : List Char) :
    stripWS l.reverse = (stripWS l).reverse :=
  List.filter_reverse _ l

theorem stripWS_trimSpace (l : List Char) :
    stripWS (trimSpace l) = stripWS l := by
  unfold trimSpace
  rw [stripWS_reverse, stripWS_dropWhile, stripWS_reverse, List.reverse_reverse,
    stripWS_dropWhile]

theorem splitNl_ne_nil (l : List Char) : splitNl l ≠ [] := by
  cases l with
  | nil => simp [splitNl]
  | cons c cs =>
    rw [splitNl]
    by_cases hc : c = '\n'
    · simp [hc]
    · rw [if_neg hc]
      cases splitNl cs <;> simp

theorem intercalateNl_splitNl (l : List Char) :
    intercalateNl (splitNl l) = l := by
  induction l with
  | nil => rfl
  | cons c cs ih =>
    rw [splitNl]
    by_cases hc : c = '\n'
    · rw [if_pos hc]
      cases hs : splitNl cs with
      | nil => exact absurd hs (splitNl_ne_nil cs)
      | cons m ms =>
        show '\n' :: intercalateNl (m :: ms) = c :: cs
        rw [← hs, ih, hc]
    · rw [if_neg hc]
      cases hs : splitNl cs with
      | nil => exact absurd hs (splitNl_ne_nil cs)
      | cons m ms =>
        cases ms with
        | nil =>
          show c :: m = c :: cs
          have : intercalateNl [m] = cs := by rw [← hs, ih]
          rw [← this]
          rfl
        | cons m2 ms2 =>
          show (c :: m) ++ '\n' :: intercalateNl (m2 :: ms2) = c :: cs
          have : m ++ '\n' :: intercalateNl (m2 :: ms2) = cs := by
            rw [show m ++ '\n' :: intercalateNl (m2 :: ms2) =
              intercalateNl (m :: m2 :: ms2) from rfl, ← hs, ih]
          rw [List.cons_append, this]

theorem stripWS_intercalateNl (ls : List (List Char)) :
    stripWS (intercalateNl ls) = (ls.map stripWS).flatten := by
  induction ls with
  | nil => rfl
  | cons l ls ih =>
    cases ls with
    | nil => simp [intercalateNl]
    | cons l2 ls2 =>
      show stripWS (l ++ '\n' :: intercalateNl (l2 :: ls2)) = _
      rw [stripWS_append]
      have hmid : stripWS ('\n' :: intercalateNl (l2 :: ls2)) =
          stripWS (intercalateNl (l2 :: ls2)) := by
        unfold stripWS
        rw [List.filter_cons]
        have hb : (!goIsSpace '\n') = false := by decide
        rw [hb]
        simp
      rw [hmid, ih]
      simp

/-- Invariant of the scanning loop: the processed line array differs from
the input lines only by per-line trimming (so agrees after whitespace
stripping), and when a label was found its index is at most end + 1. -/
theorem scanLoop_inv (lab : List Char) (rest : List (List Char)) :
    ∀ (acc : List (List Char)) (start : Option Nat) (endv i : Nat)
      (pl : List (List Char)) (st : Option Nat) (e : Nat),
      (∀ s, start = some s → s < i ∧ s ≤ endv + 1) →
      scanLoop lab rest acc start endv i = some (pl, st, e) →
      pl.map stripWS = (acc.reverse ++ rest).map stripWS ∧
      (∀ s, st = some s → s ≤ e + 1) := by
  induction rest with
  | nil =>
    intro acc start endv i pl st e hpre h
    simp only [scanLoop, Option.some.injEq, Prod.mk.injEq] at h
    obtain ⟨h1, h2, h3⟩ := h
    constructor
    · rw [← h1]; simp
    · intro s hs
      rw [← h3]
      exact (hpre s (h2 ▸ hs)).2
  | cons line rest ih =>
    intro acc start endv i pl st e hpre h
    rw [scanLoop] at h
    by_cases h1 : start = none ∧ ¬ startsWith (trimSpace line) (lab ++ [':']) = true
    · rw [if_pos h1] at h
      have := ih (line :: acc) start i (i + 1) pl st e
        (by intro s hs; rw [h1.1] at hs; cases hs) h
      rw [List.reverse_cons] at this
      rw [List.append_assoc] at this
      exact ⟨this.1, this.2⟩
    · rw [if_neg h1] at h
      simp only at h
      set start' := if startsWith (trimSpace line) (lab ++ [':']) = true then some i
        else start with hstart'
      set endv' := if ¬ startsWith (trimSpace line) (lab ++ [':']) = true ∧
          ¬ start = none ∧ 2 < line.length ∧ ¬ trimSpace (List.take 2 line) = ['-'] ∧
          ¬ trimSpace (List.take 2 line) = [] then i - 1 else i with hendv'
      have hpre' : ∀ s, start' = some s → s < i + 1 ∧ s ≤ endv' + 1 := by
        intro s hs
        rw [hstart'] at hs
        by_cases hlab2 : startsWith (trimSpace line) (lab ++ [':']) = true
        · rw [if_pos hlab2] at hs
          injection hs with hs
          subst hs
          constructor
          · exact Nat.lt_succ_self i
          · rw [hendv', if_neg (by intro hc; exact hc.1 hlab2)]
            exact Nat.le_succ i
        · rw [if_neg hlab2] at hs
          obtain ⟨hlt, _⟩ := hpre s hs
          constructor
          · exact Nat.lt_succ_of_lt hlt
          · rw [hendv']
            by_cases hc : ¬ startsWith (trimSpace line) (lab ++ [':']) = true ∧
                ¬ start = none ∧ 2 < line.length ∧ ¬ trimSpace (List.take 2 line) = ['-'] ∧
                ¬ trimSpace (List.take 2 line) = []
            · rw [if_pos hc]
              omega
            · rw [if_neg hc]
              omega
      by_cases h2 : line = []
      · rw [if_pos h2] at h
        cases acc with
        | nil => cases h
        | cons prev acc' =>
          have h' : (if prev = [] then
              some ((trimSpace line :: prev :: acc').reverse ++ rest, start', endv')
            else scanLoop lab rest (trimSpace line :: prev :: acc') start' endv' (i + 1)) =
              some (pl, st, e) := h
          by_cases h3 : prev = []
          · rw [if_pos h3] at h'
            simp only [Option.some.injEq, Prod.mk.injEq] at h'
            obtain ⟨hfst, hsnd, htrd⟩ := h'
            constructor
            · rw [← hfst, List.reverse_cons, List.append_assoc]
              simp only [List.map_append, List.map_cons]
              rw [stripWS_trimSpace]
              simp
            · intro s hs
              obtain ⟨_, hle⟩ := hpre' s (hsnd ▸ hs)
              omega
          · rw [if_neg h3] at h'
            have hr := ih (trimSpace line :: prev :: acc') start' endv' (i + 1) pl st e hpre' h'
            rw [List.reverse_cons, List.append_assoc] at hr
            refine ⟨?_, hr.2⟩
            rw [hr.1]
            simp only [List.map_append, List.map_cons]
            rw [stripWS_trimSpace]
            simp
      · rw [if_neg h2] at h
        have hr := ih (trimSpace line :: acc) start' endv' (i + 1) pl st e hpre' h
        rw [List.reverse_cons, List.append_assoc] at hr
        refine ⟨?_, hr.2⟩
        rw [hr.1]
        simp only [List.map_append, List.map_cons]
        rw [stripWS_trimSpace]
        simp

theorem take_middle_drop (l : List (List Char)) (s e : Nat) (h : s ≤ e + 1) :
    l.take s ++ ((l.take (e + 1)).drop s ++ l.drop (e + 1)) = l := by
  have h1 : (l.take (e + 1)).take s = l.take s := by
    rw [List.take_take, Nat.min_eq_left h]
  calc l.take s ++ ((l.take (e + 1)).drop s ++ l.drop (e + 1))
      = ((l.take (e + 1)).take s ++ (l.take (e + 1)).drop s) ++ l.drop (e + 1) := by
        rw [h1, List.append_assoc]
    _ = l.take (e + 1) ++ l.drop (e + 1) := by rw [List.take_append_drop]
    _ = l := List.take_append_drop _ _

/-- Whitespace-insensitive decomposition of a document by one extraction:
the text splits into the returned remainder, the consumed section, and a
dropped tail (the lines after the section's last consumed line). -/
theorem strip_decomposition (docL lab : List Char) :
    stripWS docL =
      stripWS (remainderL docL lab) ++ stripWS (consumedL docL lab) ++
        stripWS (droppedL docL lab) := by
  unfold remainderL consumedL droppedL
  cases hs : scanOf docL lab with
  | none => simp [stripWS_append, stripWS]
  | some r =>
    obtain ⟨pl, st, e⟩ := r
    cases st with
    | none => simp [stripWS_append, stripWS]
    | some s =>
      have hinv := scanLoop_inv lab (splitNl docL) [] none 0 0 pl (some s) e
        (by intro s2 hs2; cases hs2) hs
      have hbound : s ≤ e + 1 := hinv.2 s rfl
      have hdoc : stripWS docL = (List.map stripWS (splitNl docL)).flatten := by
        conv_lhs => rw [← intercalateNl_splitNl docL]
        exact stripWS_intercalateNl _
      have hpl : (List.map stripWS pl).flatten = (List.map stripWS (splitNl docL)).flatten := by
        rw [hinv.1]; simp
      simp only
      rw [stripWS_intercalateNl, stripWS_intercalateNl, stripWS_intercalateNl,
        List.append_assoc, ← List.flatten_append, ← List.flatten_append,
        ← List.map_append, ← List.map_append, take_middle_drop pl s e hbound,
        hpl, ← hdoc]

/-- The first component of parseDocSection is always the remainder
computed by the scan (the function never aborts). -/
theorem parseDocSectionL_fst (docL lab : List Char) :
    (parseDocSectionL docL lab).map Prod.fst = some (remainderL docL lab) := by
  have htot := scanLoop_isSome lab (splitNl docL) [] none 0 0 (fun _ => rfl)
  unfold parseDocSectionL remainderL
  cases hs : scanOf docL lab with
  | none =>
    unfold scanOf at hs
    rw [hs] at htot
    cases htot
  | some r =>
    obtain ⟨pl, st, e⟩ := r
    cases st <;> rfl

/-- Claim C2, amended: the two extractions in sequence decompose the
document, modulo whitespace trimming, into the final remainder, each
consumed section, and each extraction's dropped tail — the lines after a
consumed section's last line, which the code removes from the remainder.
Without the dropped tails the reconstruction fails (see the
counterexample).  The conjuncts identify the remainders used here with
the ones parseErrorDoc / parsePathDoc return. -/
theorem claim_C2_amended (doc : String) :
    stripWS doc.data =
      stripWS (remainderL (remainderL doc.data errDocLabel.data) pathDocLabel.data) ++
        stripWS (consumedL (remainderL doc.data errDocLabel.data) pathDocLabel.data) ++
        stripWS (droppedL (remainderL doc.data errDocLabel.data) pathDocLabel.data) ++
        stripWS (consumedL doc.data errDocLabel.data) ++
        stripWS (droppedL doc.data errDocLabel.data) ∧
    (parseErrorDoc doc).map Prod.fst =
      some (String.mk (remainderL doc.data errDocLabel.data)) ∧
    (parsePathDoc (String.mk (remainderL doc.data errDocLabel.data))).map Prod.fst =
      some (String.mk (remainderL (remainderL doc.data errDocLabel.data) pathDocLabel.data)) := by
  refine ⟨?_, ?_, ?_⟩
  · have h1 := strip_decomposition doc.data errDocLabel.data
    have h2 := strip_decomposition (remainderL doc.data errDocLabel.data) pathDocLabel.data
    rw [h1, h2]
  · unfold parseErrorDoc parseDocSection
    rw [Option.map_map, Option.map_map]
    have hlink := parseDocSectionL_fst doc.data errDocLabel.data
    cases hp : parseDocSectionL doc.data errDocLabel.data with
    | none => rw [hp] at hlink; cases hlink
    | some r =>
      rw [hp] at hlink
      have hr1 : r.1 = remainderL doc.data errDocLabel.data := by
        have h3 : some r.1 = some (remainderL doc.data errDocLabel.data) := hlink
        injection h3
      show some (String.mk r.1) = _
      rw [hr1]
  · unfold parsePathDoc parseDocSection
    rw [Option.map_map, Option.map_map]
    have hdata : (String.mk (remainderL doc.data errDocLabel.data)).data =
        remainderL doc.data errDocLabel.data := rfl
    rw [hdata]
    have hlink := parseDocSectionL_fst (remainderL doc.data errDocLabel.data) pathDocLabel.data
    cases hp : parseDocSectionL (remainderL doc.data errDocLabel.data) pathDocLabel.data with
    | none => rw [hp] at hlink; cases hlink
    | some r =>
      rw [hp] at hlink
      have hr1 : r.1 =
          remainderL (remainderL doc.data errDocLabel.data) pathDocLabel.data := by
        have h3 : some r.1 =
            some (remainderL (remainderL doc.data errDocLabel.data) pathDocLabel.data) := hlink
        injection h3
      show some (String.mk r.1) = _
      rw [hr1]

/-- Claim C2, counterexample: for the document
"Head.\nerrors:\n- E: oops\nZtail" the error extraction consumes
"errors:\n- E: oops", returns remainder "Head." and silently drops
"Ztail"; the path extraction finds nothing.  No concatenation of the
final remainder with the consumed sections can be whitespace-equivalent
to the original, because the non-whitespace character Z survives
trimming but appears in no part. -/
theorem claim_C2_counterexample :
    parseErrorDoc "Head.\nerrors:\n- E: oops\nZtail" =
      some ("Head.", [⟨"E", "oops"⟩]) ∧
    consumedL "Head.\nerrors:\n- E: oops\nZtail".data "errors".data =
      "errors:\n- E: oops".data ∧
    droppedL "Head.\nerrors:\n- E: oops\nZtail".data "errors".data = "Ztail".data ∧
    parsePathDoc "Head." = some ("Head.", []) ∧
    consumedL "Head.".data "path params".data = [] ∧
    stripWS ("Head." ++ "errors:\n- E: oops").data ≠
      stripWS "Head.\nerrors:\n- E: oops\nZtail".data ∧
    stripWS ("errors:\n- E: oops" ++ "Head.").data ≠
      stripWS "Head.\nerrors:\n- E: oops\nZtail".data := by
  refine ⟨by decide, by decide, by decide, by decide, by decide, by decide, by decide⟩

/-
Declaration correlation (parseCode, parser.go lines 125-260).  The external
collaborators (package loader, resource parser, overlay provider) are outside
this file; the discovered declarations they produce are modelled as plain
data, and the correlation switch bodies are translated from the source.
-/

/-- Wire-encoding field metadata (source type apienc.ParameterEncoding,
fields SrcName/WireName/Location/Type/Doc; modelled from the spec as the
collaborator's declaration shape). -/
structure ParameterEncoding where
  srcName : String
  wireName : String
  location : String
  type : String
  doc : String
deriving DecidableEq, Repr

/-- Request/response type reference (source schema.Type; modelled from the
spec: a pointer indirection, a named type carrying its declaration doc, or
anything else). -/
inductive SchemaType where
  | pointer (elem : SchemaType)
  | named (nm : String) (declDoc : String)
  | other
deriving DecidableEq, Repr

/-- deref (parser.go lines 115-123): unwrap pointer indirections. -/
def deref : SchemaType → SchemaType
  | .pointer e => deref e
  | t => t

/-- A field of an output TypeInput (source type TypeFieldInput; modelled
from the spec; the struct-declaration path leaves wireName and location
at their zero value). -/
structure TypeFieldInput where
  name : String
  wireName : String
  location : String
  type : String
  doc : String
deriving DecidableEq, Repr

/-- A named type record in an endpoint's types list (source TypeInput,
modelled from the spec). -/
structure TypeInput where
  name : String
  doc : String
  fields : List TypeFieldInput
deriving DecidableEq, Repr

/-- A path segment with attached documentation (modelled from the spec:
toPathSegments attaches matching path-parameter docs by segment name). -/
structure PathSegment where
  value : String
  doc : String
deriving DecidableEq, Repr

/-- The mutable output record of a Target (source EndpointInput, modelled
from the spec: the fields parseCode populates). -/
structure EndpointInput where
  name : String
  method : String
  visibility : String
  language : String
  doc : String
  errors : List ErrorInput
  path : List PathSegment
  requestType : String
  responseType : String
  types : List TypeInput
deriving DecidableEq, Repr

/-- An endpoint declaration discovered by the external parser (source
api.Endpoint, modelled from the spec: originating file, raw doc comment,
name, declared HTTP methods in declaration order, access level, path
segments, request/response type references and their wire encodings). -/
structure EndpointDecl where
  file : String
  doc : String
  name : String
  httpMethods : List String
  access : String
  path : List String
  request : SchemaType
  response : SchemaType
  requestEncoding : List (List ParameterEncoding)
  responseEncoding : Option (List ParameterEncoding)
deriving DecidableEq, Repr

/-- A field of a declared struct type (source schema.StructField, modelled
from the spec: name, rendered type, doc). -/
structure StructField where
  name : String
  type : String
  doc : String
deriving DecidableEq, Repr

/-- A type declaration discovered by the schema parser (source
schema.TypeDecl, modelled from the spec; structFields is `some` exactly
when the declared type is a struct type). -/
structure TypeDeclD where
  file : String
  name : String
  doc : String
  structFields : Option (List StructField)
deriving DecidableEq, Repr

/-- The caller's Targets: file path to output record (source overlays,
modelled from the spec: overlays.get resolves a declaration's file). -/
def Overlays := List (String × EndpointInput)
deriving DecidableEq, Repr

/-- overlays.get: the record claimed for a file, if any. -/
def overlaysGet : List (String × EndpointInput) → String → Option EndpointInput
  | [], _ => none
  | (k, e) :: rest, f => if k = f then some e else overlaysGet rest f

/-- In-place mutation of a Target's record, as explicit state passing. -/
def overlaysSet : List (String × EndpointInput) → String → EndpointInput →
    List (String × EndpointInput)
  | [], _, _ => []
  | (k, e0) :: rest, f, e =>
    if k = f then (k, e) :: rest else (k, e0) :: overlaysSet rest f e

def assocGet : List (String × String) → String → Option String
  | [], _ => none
  | (k, v) :: rest, f => if k = f then some v else assocGet rest f

/-- toPathSegments.  Modelled from the spec: walk the declared path
segments and attach any matching path-parameter documentation by name. -/
def toPathSegments (path : List String) (pathDocs : List (String × String)) :
    List PathSegment :=
  path.map fun seg => ⟨seg, (assocGet pathDocs seg).getD ""⟩

/-- strings.TrimSpace at the String level. -/
def trimStr (s : String) : String :=
  String.mk (trimSpace s.data)

/-- The TypeInput synthesized from wire-encoding metadata
(parser.go lines 192-204 and 210-222). -/
def wireTypeInput (nm declDoc : String) (params : List ParameterEncoding) : TypeInput :=
  { name := nm
    doc := trimStr declDoc
    fields := params.map fun f =>
      { name := f.srcName, wireName := f.wireName, location := f.location,
        type := f.type, doc := trimStr f.doc } }

/-- The request-type part of endpoint correlation (parser.go lines 189-206):
record the named request type and, when wire-encoding metadata exists,
append a TypeRecord built from its first encoding's parameters. -/
def applyRequest (r : EndpointDecl) (e : EndpointInput) : EndpointInput :=
  match deref r.request with
  | .named nm declDoc =>
    let e1 := { e with requestType := nm }
    match r.requestEncoding with
    | [] => e1
    | enc :: _ => { e1 with types := e1.types ++ [wireTypeInput nm declDoc enc] }
  | _ => e

/-- The response-type part of endpoint correlation (parser.go lines
207-224): record the named response type and, when a response encoding
exists, append a TypeRecord built from its parameters. -/
def applyResponse (r : EndpointDecl) (e : EndpointInput) : EndpointInput :=
  match deref r.response with
  | .named nm declDoc =>
    let e2 := { e with responseType := nm }
    match r.responseEncoding with
    | none => e2
    | some params => { e2 with types := e2.types ++ [wireTypeInput nm declDoc params] }
  | _ => e

/-- Correlation of one endpoint declaration (parser.go lines 174-225):
skip silently when no Target claims the file; otherwise extract error and
path annotations from the doc, populate the record (first declared HTTP
method, access level, path segments, empty types) and resolve the request
and response types.  `none` models the r.HTTPMethods[0] panic on an empty
method list (the annotation extraction itself never aborts). -/
def processEndpoint (ov : List (String × EndpointInput)) (r : EndpointDecl) :
    Option (List (String × EndpointInput)) :=
  match overlaysGet ov r.file with
  | none => some ov
  | some e0 =>
    match parseErrorDoc r.doc with
    | none => none
    | some (d1, errs) =>
      match parsePathDoc d1 with
      | none => none
      | some (d2, pathDocs) =>
        match r.httpMethods with
        | [] => none
        | m :: _ =>
          let e := { e0 with
            doc := d2, errors := errs, name := r.name, method := m,
            visibility := r.access, language := "GO",
            path := toPathSegments r.path pathDocs, types := [] }
          some (overlaysSet ov r.file (applyResponse r (applyRequest r e)))

/-- The TypeInput synthesized from a struct declaration's fields
(parser.go lines 243-253): no wire name or location (zero values). -/
def structTypeInput (d : TypeDeclD) (fields : List StructField) : TypeInput :=
  { name := d.name
    doc := trimStr d.doc
    fields := fields.map fun f =>
      { name := f.name
        wireName := ""
        location := ""
        type := f.type
        doc := trimStr f.doc } }

/-- Correlation of one struct type declaration (parser.go lines 228-254):
skip non-struct types and unclaimed files; skip when a TypeRecord of the
same name is already present; otherwise append a TypeRecord built from
the struct's declared fields, with no wire name or location. -/
def processTypeDecl (ov : List (String × EndpointInput)) (d : TypeDeclD) :
    List (String × EndpointInput) :=
  match d.structFields with
  | none => ov
  | some fields =>
    match overlaysGet ov d.file with
    | none => ov
    | some e =>
      if e.types.any (fun t => t.name == d.name) then ov
      else
        overlaysSet ov d.file
          { e with types := e.types ++ [structTypeInput d fields] }

/-- A declaration handled by the correlation pass. -/
inductive Decl where
  | endpoint (r : EndpointDecl)
  | typeDecl (d : TypeDeclD)
deriving DecidableEq, Repr

/-- The originating file of a declaration. -/
def Decl.fileOf : Decl → String
  | .endpoint r => r.file
  | .typeDecl d => d.file

/-- One step of the correlation pass. -/
def correlate (ov : List (String × EndpointInput)) : Decl →
    Option (List (String × EndpointInput))
  | .endpoint r => processEndpoint ov r
  | .typeDecl d => some (processTypeDecl ov d)

/-- A freshly initialized output record (all zero values). -/
def emptyEndpointInput : EndpointInput :=
  { name := ""
    method := ""
    visibility := ""
    language := ""
    doc := ""
    errors := []
    path := []
    requestType := ""
    responseType := ""
    types := [] }

/-- An output record already holding a TypeRecord named Foo. -/
def fooEndpointInput : EndpointInput :=
  { emptyEndpointInput with types := [{ name := "Foo", doc := "", fields := [] }] }

/-- An endpoint declaring the HTTP methods [GET, POST]. -/
def getPostDecl : EndpointDecl :=
  { file := "a.go"
    doc := ""
    name := "List"
    httpMethods := ["GET", "POST"]
    access := "public"
    path := []
    request := .other
    response := .other
    requestEncoding := []
    responseEncoding := none }

/-- An endpoint whose request and response both resolve to the named type
Foo, with wire-encoding metadata present for both. -/
def dupReqRespDecl : EndpointDecl :=
  { file := "svc.go"
    doc := ""
    name := "Get"
    httpMethods := ["GET"]
    access := "public"
    path := []
    request := .named "Foo" ""
    response := .named "Foo" ""
    requestEncoding := [[]]
    responseEncoding := some [] }

theorem parseErrorDoc_shape (doc : String) :
    ∃ p, parseErrorDoc doc = some p := by
  have h := parseDocSection_total doc errDocLabel
  cases hp : parseDocSection doc errDocLabel with
  | none => rw [hp] at h; cases h
  | some p =>
    refine ⟨(p.1, p.2.map fun e => ⟨e.key, e.doc⟩), ?_⟩
    unfold parseErrorDoc
    rw [hp]
    rfl

theorem parsePathDoc_shape (doc : String) :
    ∃ p, parsePathDoc doc = some p := by
  have h := parseDocSection_total doc pathDocLabel
  cases hp : parseDocSection doc pathDocLabel with
  | none => rw [hp] at h; cases h
  | some p =>
    refine ⟨(p.1, p.2.foldl (fun m e => mapInsert e.key e.doc m) []), ?_⟩
    unfold parsePathDoc
    rw [hp]
    rfl

theorem applyRequest_method (r : EndpointDecl) (e : EndpointInput) :
    (applyRequest r e).method = e.method := by
  unfold applyRequest
  cases deref r.request with
  | pointer t => rfl
  | named nm dd => cases r.requestEncoding <;> rfl
  | other => rfl

theorem applyResponse_method (r : EndpointDecl) (e : EndpointInput) :
    (applyResponse r e).method = e.method := by
  unfold applyResponse
  cases deref r.response with
  | pointer t => rfl
  | named nm dd => cases r.responseEncoding <;> rfl
  | other => rfl

/-- Claim C9: for every endpoint declaration with at least one declared
HTTP method whose file is claimed by a Target, the populated record's
method is the first declared method. -/
theorem claim_C9_firstMethod (ov : List (String × EndpointInput))
    (r : EndpointDecl) (e0 : EndpointInput) (m : String) (ms : List String)
    (hm : r.httpMethods = m :: ms) (hget : overlaysGet ov r.file = some e0) :
    ∃ e, processEndpoint ov r = some (overlaysSet ov r.file e) ∧ e.method = m := by
  unfold processEndpoint
  obtain ⟨⟨d1, errs1⟩, hp1⟩ := parseErrorDoc_shape r.doc
  obtain ⟨⟨d2, pd2⟩, hp2⟩ := parsePathDoc_shape d1
  simp only [hget, hp1, hp2, hm]
  refine ⟨_, rfl, ?_⟩
  rw [applyResponse_method, applyRequest_method]

/-- Claim C9, witness: an endpoint declaring [GET, POST] resolves to GET. -/
theorem claim_C9_firstMethod_witness :
    ∃ e, processEndpoint [("a.go", emptyEndpointInput)] getPostDecl =
        some (overlaysSet [("a.go", emptyEndpointInput)] "a.go" e) ∧
      e.method = "GET" :=
  claim_C9_firstMethod [("a.go", emptyEndpointInput)] getPostDecl
    emptyEndpointInput "GET" ["POST"] rfl (by decide)

/-- Claim C8: a declaration (endpoint or struct type) whose file is
claimed by no Target is skipped silently: correlation returns the Targets
unchanged.  The correlation switch touches no diagnostic state at all
(the `continue` at parser.go lines 176-178 and 235-237 comes before any
record write, and no validation error is emitted anywhere in the switch). -/
theorem claim_C8_frame (ov : List (String × EndpointInput)) (dc : Decl)
    (h : overlaysGet ov dc.fileOf = none) : correlate ov dc = some ov := by
  cases dc with
  | endpoint r =>
    show processEndpoint ov r = some ov
    unfold processEndpoint
    rw [show (Decl.endpoint r).fileOf = r.file from rfl] at h
    rw [h]
  | typeDecl d =>
    show some (processTypeDecl ov d) = some ov
    rw [show (Decl.typeDecl d).fileOf = d.file from rfl] at h
    unfold processTypeDecl
    cases d.structFields with
    | none => rfl
    | some fields => rw [h]

/-- Claim C8, witness: a declaration for "b.go" against a Target set that
only claims "a.go" leaves the Targets unchanged. -/
theorem claim_C8_frame_witness :
    correlate [("a.go", emptyEndpointInput)]
        (.typeDecl { file := "b.go", name := "T", doc := "", structFields := some [] }) =
      some [("a.go", emptyEndpointInput)] :=
  claim_C8_frame [("a.go", emptyEndpointInput)]
    (.typeDecl { file := "b.go", name := "T", doc := "", structFields := some [] })
    (by decide)

/-- Claim C4, counterexample: an endpoint whose request and response both
resolve to the named type Foo, with wire encodings present for both, gets
two TypeRecords named Foo in its types list — endpoint correlation appends
them without checking for an existing name. -/
theorem claim_C4_counterexample :
    (processEndpoint [("svc.go", emptyEndpointInput)] dupReqRespDecl).map
        (fun ov => ov.map fun p => p.2.types.map TypeInput.name) =
      some [["Foo", "Foo"]] ∧
    ¬ (["Foo", "Foo"] : List String).Nodup := by
  exact ⟨by decide, by decide⟩

/-- Claim C4, amended: deduplication by name happens only in the
struct-declaration sweep — a struct declaration whose name is already
present in the record's types list is skipped, first occurrence wins —
while endpoint correlation appends the request and response type records
unconditionally: when both resolve to named types with wire encodings the
types list is exactly [requestName, responseName], so a single endpoint
whose request and response share a name yields that name twice. -/
theorem claim_C4_amended :
    (∀ (ov : List (String × EndpointInput)) (d : TypeDeclD) (e : EndpointInput),
        overlaysGet ov d.file = some e →
        (e.types.any fun t => t.name == d.name) = true →
        processTypeDecl ov d = ov) ∧
    (∀ (ov : List (String × EndpointInput)) (r : EndpointDecl)
        (e0 : EndpointInput) (m : String) (ms : List String)
        (nm1 dd1 nm2 dd2 : String) (enc : List ParameterEncoding)
        (encs : List (List ParameterEncoding)) (ps : List ParameterEncoding),
        overlaysGet ov r.file = some e0 →
        r.httpMethods = m :: ms →
        deref r.request = .named nm1 dd1 →
        r.requestEncoding = enc :: encs →
        deref r.response = .named nm2 dd2 →
        r.responseEncoding = some ps →
        ∃ e, processEndpoint ov r = some (overlaysSet ov r.file e) ∧
          e.types.map TypeInput.name = [nm1, nm2]) := by
  constructor
  · intro ov d e hget hany
    unfold processTypeDecl
    cases d.structFields with
    | none => rfl
    | some fields =>
      simp only [hget, hany, if_true]
  · intro ov r e0 m ms nm1 dd1 nm2 dd2 enc encs ps hget hm hder1 hreq hder2 hresp
    unfold processEndpoint
    obtain ⟨⟨d1, errs1⟩, hp1⟩ := parseErrorDoc_shape r.doc
    obtain ⟨⟨d2, pd2⟩, hp2⟩ := parsePathDoc_shape d1
    simp only [hget, hp1, hp2, hm]
    refine ⟨_, rfl, ?_⟩
    unfold applyResponse applyRequest
    simp only [hder1, hreq, hder2, hresp]
    rfl

/-- Claim C4, witness for the amended theorem: a struct declaration named
Foo against a record already holding a Foo TypeRecord is a no-op, and the
duplicated-name endpoint instantiates the unconditional-append half. -/
theorem claim_C4_amended_witness :
    processTypeDecl [("a.go", fooEndpointInput)]
        { file := "a.go", name := "Foo", doc := "", structFields := some [] } =
      [("a.go", fooEndpointInput)] ∧
    ∃ e, processEndpoint [("svc.go", emptyEndpointInput)] dupReqRespDecl =
        some (overlaysSet [("svc.go", emptyEndpointInput)] "svc.go" e) ∧
      e.types.map TypeInput.name = ["Foo", "Foo"] := by
  constructor
  · exact claim_C4_amended.1 [("a.go", fooEndpointInput)]
      { file := "a.go", name := "Foo", doc := "", structFields := some [] }
      fooEndpointInput (by decide) (by decide)
  · exact claim_C4_amended.2 [("svc.go", emptyEndpointInput)] dupReqRespDecl
      emptyEndpointInput "GET" [] "Foo" "" "Foo" "" [] [] [] (by decide) rfl rfl rfl
      rfl rfl

/-
Pipeline orchestration (parseCode's recovery boundary, parser.go lines
148-156).  The surrounding machinery — perr.CatchBailout, the overlay
provider's validationErrors translation, and the external parser that may
abort — lives outside this file; the boundary's behaviour is modelled
from the spec.
-/

/-- Outcome of driving the external parser over the packages.  Modelled
from the spec: the pass either completes, or aborts abnormally partway,
leaving the Targets in whatever partial state they reached, with
diagnostics accumulated up to that point in either case. -/
inductive PassOutcome where
  | completed (st : List (String × EndpointInput)) (diags : List String)
  | bailout (st : List (String × EndpointInput)) (diags : List String)
deriving DecidableEq, Repr

/-- The diagnostics accumulated by a pass, however it ended. -/
def PassOutcome.diags : PassOutcome → List String
  | .completed _ ds => ds
  | .bailout _ ds => ds

/-- The aggregated result returned to the caller (source SyncResult,
fields Services/Errors; modelled from the spec). -/
structure SyncResult where
  services : List String
  errors : List String
deriving DecidableEq, Repr

/-- The recovery boundary of parseCode (parser.go lines 148-156).
Modelled from the spec: perr.CatchBailout absorbs an abnormal abort of
the parsing pass; the deferred function then builds a fresh result when
none was produced (rtn == nil) and in every case finalizes the Errors
field from the accumulated diagnostics via the overlay provider's
validationErrors translation (here the abstract vErr). -/
def parseCodeResult (services : List String)
    (vErr : List String → List String) (out : PassOutcome) : SyncResult :=
  let rtn0 : Option SyncResult :=
    match out with
    | .completed _ _ => some { services := services, errors := [] }
    | .bailout _ _ => none
  let rtn : SyncResult :=
    match rtn0 with
    | none => { services := services, errors := [] }
    | some r => r
  { rtn with errors := vErr out.diags }

/-- Claim C5: for every run of the pass — including one the external
parser aborts abnormally partway — the caller receives a SyncResult whose
errors field is the translation of the accumulated diagnostics; no abort
escapes the boundary. -/
theorem claim_C5_recovery (services : List String)
    (vErr : List String → List String) (out : PassOutcome) :
    parseCodeResult services vErr out =
      { services := services, errors := vErr out.diags } := by
  cases out <;> rfl

end EncoreAI
